import Mathlib

set_option autoImplicit false

/-
  Verification of the core history / delta / window-aggregation logic of
  build_snapshot.mjs (bike-tracker).  Samples, delta events and the station
  history are embedded as Lean structures and association lists; timestamps
  and bike counts are integers (milliseconds since epoch, bike counts).
-/

namespace BikeTracker

/-- One observation of available bikes at a station: `{t, bikes}`. -/
structure Sample where
  t : Int
  bikes : Int
  deriving DecidableEq, Repr

/-- A derived change event: `{t, delta}` with `delta = curr.bikes - prev.bikes`. -/
structure DeltaEvent where
  t : Int
  delta : Int
  deriving DecidableEq, Repr

/-- Embedding of `toDeltas(samples)` (build_snapshot.mjs lines 42-51): for each
adjacent pair of samples, push `{t: curr.t, delta: curr.bikes - prev.bikes}`
when the delta is non-zero. -/
def toDeltas : List Sample → List DeltaEvent
  | prev :: curr :: rest =>
      let delta := curr.bikes - prev.bikes
      (if delta ≠ 0 then [{ t := curr.t, delta := delta }] else []) ++ toDeltas (curr :: rest)
  | _ => []

/-- The backward loop body of `sumNet` (lines 53-61), expressed as recursion over
the reversed event list: break (contribute nothing further) on the first event
with `t < fromMs`, otherwise add `delta` when `t <= toMs`. -/
def scanBack (fromMs toMs : Int) : List DeltaEvent → Int
  | [] => 0
  | e :: rest =>
      if e.t < fromMs then 0
      else (if e.t ≤ toMs then e.delta else 0) + scanBack fromMs toMs rest

/-- Embedding of `sumNet(deltas, fromMs, toMs)` (lines 53-61): the JS `for` loop
runs from the last index down, which is a scan over the reversed list. -/
def sumNet (deltas : List DeltaEvent) (fromMs toMs : Int) : Int :=
  scanBack fromMs toMs deltas.reverse

/-- Specification-side window sum: the sum of `delta` over exactly those events
with `fromMs ≤ t ≤ toMs`. -/
def windowSum (deltas : List DeltaEvent) (fromMs toMs : Int) : Int :=
  ((deltas.filter (fun e => decide (fromMs ≤ e.t) && decide (e.t ≤ toMs))).map
    (fun e => e.delta)).sum

/-- Specification-side derivation: map each adjacent pair to its delta event,
keeping only non-zero deltas, in input order. -/
def deriveSpec (samples : List Sample) : List DeltaEvent :=
  (samples.zip samples.tail).filterMap (fun pc =>
    let d := pc.2.bikes - pc.1.bikes
    if d ≠ 0 then some { t := pc.2.t, delta := d } else none)

/-- True when the last sample of the series exists and is strictly older than
the cutoff; the JS code reads `arr[arr.length - 1].t < now - 60 * 1000`. -/
def lastOlderThan (arr : List Sample) (cutoff : Int) : Bool :=
  match arr.getLast? with
  | some s => decide (s.t < cutoff)
  | none => false

/-- Embedding of the per-station ingestion push (lines 94-99): append
`{t: now, bikes}` only when the series is empty or the last sample is older
than `now - 60 * 1000`. -/
def appendSample (arr : List Sample) (bikes now : Int) : List Sample :=
  if arr.length = 0 ∨ lastOlderThan arr (now - 60 * 1000) = true then
    arr ++ [{ t := now, bikes := bikes }]
  else arr

/-- History: the JS object `history.stations` mapping station id to its sample
series, embedded as an association list (JS object keys are unique). -/
abbrev History := List (String × List Sample)

/-- Lookup of `history.stations[id]`. -/
def lookupSeries (h : History) (id : String) : Option (List Sample) :=
  (h.find? (fun p => p.1 == id)).map (fun p => p.2)

/-- Retention horizon constant `MEMORY_HRS` (line 10). -/
def MEMORY_HRS : Int := 36

/-- Embedding of the pruning loop of `saveHistory` (lines 31-39), generalized
over the retention hours (the source fixes `MEMORY_HRS = 36`): every station
keeps only samples with `t >= now - hrs*60*60*1000`, and stations whose series
becomes empty are deleted. -/
def pruneStations (stations : History) (now retentionHours : Int) : History :=
  (stations.map (fun p =>
      (p.1, p.2.filter (fun s => decide (now - retentionHours * (60 * 60 * 1000) ≤ s.t))))).filter
    (fun p => !p.2.isEmpty)

section AssocObject

variable {α : Type}

/-- JS object property read `m[id]` for a string-keyed object embedded as an
association list. -/
def objGet (m : List (String × α)) (id : String) : Option α :=
  (m.find? (fun p => p.1 == id)).map (fun p => p.2)

/-- JS object property write `m[id] = v`: replace the value in place when the
key already exists, otherwise add the binding at the end (insertion order). -/
def objSet (m : List (String × α)) (id : String) (v : α) : List (String × α) :=
  if m.any (fun p => p.1 == id) then m.map (fun p => if p.1 == id then (id, v) else p)
  else m ++ [(id, v)]

end AssocObject

/-- JS assignment `history.stations[id] = arr`. -/
def historySet (h : History) (id : String) (arr : List Sample) : History :=
  objSet h id arr

/-- One iteration of the ingestion loop (lines 90-100) for a station whose live
count is numeric: read the series (an absent station starts from the empty
series), apply the debounced append, and store the result back. -/
def appendStation (h : History) (id : String) (bikes now : Int) : History :=
  historySet h id (appendSample ((lookupSeries h id).getD []) bikes now)

/-- One station record of the live status feed: `num_bikes_available` is `some`
exactly when the field holds a number (`none` embeds a missing or non-numeric
count such as null). -/
structure StatusEntry where
  station_id : String
  num_bikes_available : Option Int
  deriving DecidableEq, Repr

/-- Embedding of lines 82-87: build the `latest` map from the status feed,
keeping only stations whose count is a number. -/
def buildLatest (status : List StatusEntry) : List (String × Int) :=
  status.foldl (fun m s =>
    match s.num_bikes_available with
    | some n => objSet m s.station_id n
    | none => m) []

/-- Embedding of the ingestion loop (lines 89-100): stations of the information
feed whose live count is not numeric are skipped, the others get the debounced
append of `{t: now, bikes}` to their series. -/
def ingest (info : List String) (latest : List (String × Int)) (h : History) (now : Int) :
    History :=
  info.foldl (fun acc id =>
    match objGet latest id with
    | none => acc
    | some bikes => appendStation acc id bikes now) h

/-- The published-window selector (lines 124-128): `publishWindow` chooses
among the three windowed nets, defaulting to the day net. -/
def selectNet (publishWindow : String) (net_day net_hour net_now : Int) : Int :=
  if publishWindow == "hour" then net_hour
  else if publishWindow == "now" then net_now
  else net_day

/-- The 15-minute short window constant `SHORT_WIN_MS` (line 11). -/
def SHORT_WIN_MS : Int := 15 * 60 * 1000

/-- One iteration of the per-station snapshot loop (lines 113-134), acting on
the accumulator (byStation, totPickups, totReturns): stations with fewer than
two samples are skipped, the selected windowed net is stored when non-zero and
added to the matching total. -/
def stationStep (history : History) (dayFrom hourFrom nowFrom now : Int)
    (publishWindow : String) (acc : List (String × Int) × Int × Int) (id : String) :
    List (String × Int) × Int × Int :=
  match lookupSeries history id with
  | none => acc
  | some samples =>
      if samples.length < 2 then acc
      else
        let deltas := toDeltas samples
        let net := selectNet publishWindow (sumNet deltas dayFrom now)
          (sumNet deltas hourFrom now) (sumNet deltas nowFrom now)
        if net ≠ 0 then
          (objSet acc.1 id net,
            (if net < 0 then acc.2.1 + (-net) else acc.2.1),
            (if net < 0 then acc.2.2 else acc.2.2 + net))
        else acc

/-- The per-station snapshot loop (lines 103-134) over the information feed's
station ids, starting from the empty byStation map and zero totals. -/
def computeStations (info : List String) (history : History)
    (dayFrom hourFrom nowFrom now : Int) (publishWindow : String) :
    List (String × Int) × Int × Int :=
  info.foldl (stationStep history dayFrom hourFrom nowFrom now publishWindow) ([], 0, 0)

/-- Specification-side description of one published station entry: present
exactly when the station has at least two samples and a non-zero selected net. -/
def pubEntry (history : History) (dayFrom hourFrom nowFrom now : Int)
    (publishWindow : String) (id : String) : Option (String × Int) :=
  match lookupSeries history id with
  | none => none
  | some samples =>
      if samples.length < 2 then none
      else
        let deltas := toDeltas samples
        let net := selectNet publishWindow (sumNet deltas dayFrom now)
          (sumNet deltas hourFrom now) (sumNet deltas nowFrom now)
        if net ≠ 0 then some (id, net) else none

/-- Sum of the absolute values of the negative nets of a station list. -/
def pickupsOf (l : List (String × Int)) : Int :=
  (l.map (fun p => if p.2 < 0 then -p.2 else 0)).sum

/-- Sum of the non-negative nets of a station list. -/
def returnsOf (l : List (String × Int)) : Int :=
  (l.map (fun p => if p.2 < 0 then 0 else p.2)).sum

/-- One hourly bucket `{pickups, returns}`. -/
structure HBucket where
  pickups : Int
  returns : Int
  deriving DecidableEq, Repr

/-- Event accumulation of line 147: a negative delta adds its absolute value to
pickups, any other delta is added to returns. -/
def addEvent (b : HBucket) (delta : Int) : HBucket :=
  if delta < 0 then { b with pickups := b.pickups + (-delta) }
  else { b with returns := b.returns + delta }

/-- The `hourly[key]` update of lines 146-147: initialize the bucket to zeros
when the key is absent, then accumulate the event. -/
def bumpBucket (m : List (String × HBucket)) (k : String) (delta : Int) :
    List (String × HBucket) :=
  objSet m k (addEvent ((objGet m k).getD { pickups := 0, returns := 0 }) delta)

/-- The inner event loop of lines 143-148, parametrized by the hour-key
function (the source derives the key from the event timestamp through the
process-local time zone). -/
def processDeltas (hourKey : Int → String) (m : List (String × HBucket))
    (evs : List DeltaEvent) : List (String × HBucket) :=
  evs.foldl (fun m e => bumpBucket m (hourKey e.t) e.delta) m

/-- Embedding of the hourly aggregation loop (lines 137-149): every station of
the information feed with at least two retained samples contributes all its
delta events, bucketed by hour key. -/
def buildHourly (hourKey : Int → String) (info : List String) (history : History) :
    List (String × HBucket) :=
  info.foldl (fun m id =>
    match lookupSeries history id with
    | none => m
    | some samples =>
        if samples.length < 2 then m else processDeltas hourKey m (toDeltas samples)) []

/-- All delta events derivable from the full retained history. -/
def allHistoryDeltas (history : History) : List DeltaEvent :=
  (history.map (fun p => toDeltas p.2)).flatten

/-- Sum of the absolute values of the negative deltas among the events whose
hour key is k. -/
def hourPickups (hourKey : Int → String) (evs : List DeltaEvent) (k : String) : Int :=
  ((evs.filter (fun e => hourKey e.t == k)).map
    (fun e => if e.delta < 0 then -e.delta else 0)).sum

/-- Sum of the non-negative deltas among the events whose hour key is k. -/
def hourReturns (hourKey : Int → String) (evs : List DeltaEvent) (k : String) : Int :=
  ((evs.filter (fun e => hourKey e.t == k)).map
    (fun e => if e.delta < 0 then 0 else e.delta)).sum

/-- The published snapshot (lines 151-158); `generated_at` keeps the numeric
run timestamp rather than its ISO-8601 rendering. -/
structure Snapshot where
  generated_at : Int
  window : String
  short_window_minutes : Int
  stations : List (String × Int)
  totPickups : Int
  totReturns : Int
  hourly : List (String × HBucket)

/-- Assembly of one run's snapshot from a loaded history (lines 102-158):
`dayFrom` and `hourFrom` abstract the local-time `midnight(now)` and
`hourStart(now)`, `hourKey` abstracts the local-time hour key of line 145. -/
def buildSnapshot (info : List String) (history : History) (dayFrom hourFrom now : Int)
    (publishWindow : String) (hourKey : Int → String) : Snapshot :=
  let res := computeStations info history dayFrom hourFrom (now - SHORT_WIN_MS) now
    publishWindow
  { generated_at := now
    window := publishWindow
    short_window_minutes := 15
    stations := res.1
    totPickups := res.2.1
    totReturns := res.2.2
    hourly := buildHourly hourKey info history }

lemma windowSum_nil (fromMs toMs : Int) : windowSum [] fromMs toMs = 0 := rfl

lemma windowSum_cons (e : DeltaEvent) (l : List DeltaEvent) (fromMs toMs : Int) :
    windowSum (e :: l) fromMs toMs =
      (if fromMs ≤ e.t ∧ e.t ≤ toMs then e.delta else 0) + windowSum l fromMs toMs := by
  by_cases h : fromMs ≤ e.t ∧ e.t ≤ toMs
  · simp [windowSum, List.filter_cons, h.1, h.2]
  · have : ¬ (decide (fromMs ≤ e.t) && decide (e.t ≤ toMs)) = true := by
      simpa [decide_eq_true_iff] using h
    simp [windowSum, List.filter_cons, this, h]

lemma scanBack_eq_windowSum_of_desc (fromMs toMs : Int) (l : List DeltaEvent)
    (h : l.Pairwise (fun a b => b.t ≤ a.t)) :
    scanBack fromMs toMs l = windowSum l fromMs toMs := by
  induction l with
  | nil => simp [scanBack, windowSum_nil]
  | cons e rest ih =>
      rcases List.pairwise_cons.mp h with ⟨hhead, htail⟩
      by_cases hlt : e.t < fromMs
      · have hfe : ¬ (fromMs ≤ e.t ∧ e.t ≤ toMs) := fun hc => absurd hc.1 (not_le.mpr hlt)
        have hrest : windowSum rest fromMs toMs = 0 := by
          have : rest.filter (fun e => decide (fromMs ≤ e.t) && decide (e.t ≤ toMs)) = [] := by
            rw [List.filter_eq_nil_iff]
            intro a ha
            have : a.t ≤ e.t := hhead a ha
            simp only [Bool.and_eq_true, decide_eq_true_iff, not_and]
            intro hfa
            omega
          simp [windowSum, this]
        rw [windowSum_cons]
        simp [scanBack, hlt, hfe, hrest]
      · rw [windowSum_cons, ← ih htail]
        have hge : fromMs ≤ e.t := not_lt.mp hlt
        by_cases hto : e.t ≤ toMs
        · simp [scanBack, hlt, hto, hge]
        · simp [scanBack, hlt, hto, hge]

lemma windowSum_reverse (l : List DeltaEvent) (fromMs toMs : Int) :
    windowSum l.reverse fromMs toMs = windowSum l fromMs toMs := by
  simp [windowSum, List.filter_reverse, List.map_reverse, List.sum_reverse]

/-- C1: for deltas ordered ascending by timestamp, `sumNet` (the backward scan
with early exit on the first event with `t < fromMs`) equals the sum of `delta`
over exactly the events with `fromMs ≤ t ≤ toMs`, for any ordering of
`fromMs`/`toMs` relative to the event timestamps; in particular it is 0 when no
event falls inside the window. -/
theorem sumNet_eq_windowSum (deltas : List DeltaEvent) (fromMs toMs : Int)
    (hsorted : deltas.Pairwise (fun a b => a.t ≤ b.t)) :
    sumNet deltas fromMs toMs = windowSum deltas fromMs toMs := by
  unfold sumNet
  rw [scanBack_eq_windowSum_of_desc fromMs toMs deltas.reverse
    (by simpa [List.pairwise_reverse] using hsorted)]
  exact windowSum_reverse deltas fromMs toMs

/-- Witness for C1 on the scenario from the spec: deltas
`[{t:300000, delta:-3}, {t:600000, delta:2}]`, window `[0, 600000]`, net -1. -/
theorem sumNet_eq_windowSum_witness :
    ([({ t := 300000, delta := -3 } : DeltaEvent), { t := 600000, delta := 2 }].Pairwise
        (fun a b => a.t ≤ b.t)) ∧
      sumNet [{ t := 300000, delta := -3 }, { t := 600000, delta := 2 }] 0 600000 =
        windowSum [{ t := 300000, delta := -3 }, { t := 600000, delta := 2 }] 0 600000 ∧
      sumNet [{ t := 300000, delta := -3 }, { t := 600000, delta := 2 }] 0 600000 = -1 :=
  ⟨by decide, sumNet_eq_windowSum _ 0 600000 (by decide), by decide⟩

lemma toDeltas_eq_deriveSpec (samples : List Sample) :
    toDeltas samples = deriveSpec samples := by
  induction samples with
  | nil => rfl
  | cons p tail ih =>
      cases tail with
      | nil => rfl
      | cons c rest =>
          show (if c.bikes - p.bikes ≠ 0 then
              [{ t := c.t, delta := c.bikes - p.bikes }] else []) ++ toDeltas (c :: rest) =
            deriveSpec (p :: c :: rest)
          rw [ih]
          simp only [deriveSpec, List.tail_cons, List.zip_cons_cons, List.filterMap_cons]
          by_cases h : c.bikes - p.bikes ≠ 0 <;> simp [h]

lemma toDeltas_length_le (samples : List Sample) :
    (toDeltas samples).length ≤ samples.length - 1 := by
  induction samples with
  | nil => simp [toDeltas]
  | cons p tail ih =>
      cases tail with
      | nil => simp [toDeltas]
      | cons c rest =>
          have hstep : toDeltas (p :: c :: rest) =
              (if c.bikes - p.bikes ≠ 0 then
                [{ t := c.t, delta := c.bikes - p.bikes }] else []) ++ toDeltas (c :: rest) := rfl
          have hlen : (toDeltas (c :: rest)).length ≤ rest.length := by
            simpa using ih
          have hhead : ((if c.bikes - p.bikes ≠ 0 then
              [({ t := c.t, delta := c.bikes - p.bikes } : DeltaEvent)] else [])).length ≤ 1 := by
            split <;> simp
          rw [hstep, List.length_append]
          simp only [List.length_cons]
          omega

lemma toDeltas_short (samples : List Sample) (h : samples.length < 2) :
    toDeltas samples = [] := by
  match samples, h with
  | [], _ => rfl
  | [x], _ => rfl

/-- C2: `toDeltas` emits, for each adjacent pair, the event
`{t: curr.t, delta: curr.bikes - prev.bikes}` exactly when that delta is
non-zero, preserving input order (it equals the pairwise specification map);
its length is at most `samples.length - 1`; and any series of fewer than 2
samples yields the empty sequence. -/
theorem toDeltas_correct (samples : List Sample) :
    toDeltas samples = deriveSpec samples ∧
      (toDeltas samples).length ≤ samples.length - 1 ∧
      (samples.length < 2 → toDeltas samples = []) :=
  ⟨toDeltas_eq_deriveSpec samples, toDeltas_length_le samples, toDeltas_short samples⟩

/-- Witness for C2 on the spec scenario series of three samples. -/
theorem toDeltas_correct_witness :
    toDeltas [{ t := 0, bikes := 10 }, { t := 300000, bikes := 7 }, { t := 600000, bikes := 9 }] =
        deriveSpec [{ t := 0, bikes := 10 }, { t := 300000, bikes := 7 },
          { t := 600000, bikes := 9 }] ∧
      toDeltas [{ t := 0, bikes := 10 }, { t := 300000, bikes := 7 },
          { t := 600000, bikes := 9 }] =
        [{ t := 300000, delta := -3 }, { t := 600000, delta := 2 }] :=
  ⟨(toDeltas_correct _).1, by decide⟩

lemma appendCond_iff (arr : List Sample) (c : Int) :
    (arr.length = 0 ∨ lastOlderThan arr c = true) ↔
      (arr = [] ∨ ∃ s, arr.getLast? = some s ∧ s.t < c) := by
  by_cases harr : arr = []
  · subst harr
    simp [lastOlderThan]
  · cases hl : arr.getLast? with
    | none =>
        exact absurd (List.getLast?_eq_none_iff.mp hl) harr
    | some s =>
        simp [lastOlderThan, hl, List.length_eq_zero, harr]

lemma appendSample_no_append (arr : List Sample) (b now : Int) (s : Sample)
    (hs : arr.getLast? = some s) (hle : now - 60000 ≤ s.t) :
    appendSample arr b now = arr := by
  have hne : arr ≠ [] := by
    intro h
    subst h
    simp at hs
  have hcond : ¬ (arr.length = 0 ∨ lastOlderThan arr (now - 60 * 1000) = true) := by
    rintro (h0 | hb)
    · exact hne (List.length_eq_zero.mp h0)
    · simp only [lastOlderThan, hs, decide_eq_true_eq] at hb
      omega
  unfold appendSample
  rw [if_neg hcond]

/-- C4: `appendSample` appends `{t: now, bikes}` exactly when the series is
empty or the last sample is older than `now - 60000`; otherwise it returns the
series unchanged; and a second call within 60 seconds of the (new) last
sample's timestamp leaves the series unchanged. -/
theorem append_debounced (arr : List Sample) (b now : Int) :
    (appendSample arr b now = arr ++ [{ t := now, bikes := b }] ↔
        arr = [] ∨ ∃ s, arr.getLast? = some s ∧ s.t < now - 60000) ∧
      (appendSample arr b now = arr ++ [{ t := now, bikes := b }] ∨
        appendSample arr b now = arr) ∧
      (∀ b2 now2 s, (appendSample arr b now).getLast? = some s → now2 - 60000 ≤ s.t →
        appendSample (appendSample arr b now) b2 now2 = appendSample arr b now) := by
  have h60 : now - 60 * 1000 = now - 60000 := by norm_num
  refine ⟨?_, ?_, ?_⟩
  · constructor
    · intro h
      unfold appendSample at h
      split at h
      · next hc => exact (appendCond_iff arr _).mp (h60 ▸ hc)
      · exfalso
        have := congrArg List.length h
        simp at this
    · intro hc
      unfold appendSample
      rw [if_pos ((appendCond_iff arr _).mpr (h60 ▸ hc))]
  · unfold appendSample
    split
    · exact Or.inl rfl
    · exact Or.inr rfl
  · intro b2 now2 s hs hle
    exact appendSample_no_append _ b2 now2 s hs hle

/-- Witness for C4: append at t=100000 onto a series last sampled at t=0
(older than the minute cutoff, so it grows), then re-append at t=130000
(within 60 s of t=100000, so the series is unchanged). -/
theorem append_debounced_witness :
    appendSample [{ t := 0, bikes := 5 }] 7 100000 =
        [({ t := 0, bikes := 5 } : Sample), { t := 100000, bikes := 7 }] ∧
      appendSample (appendSample [{ t := 0, bikes := 5 }] 7 100000) 9 130000 =
        appendSample [{ t := 0, bikes := 5 }] 7 100000 :=
  ⟨by decide,
    (append_debounced [{ t := 0, bikes := 5 }] 7 100000).2.2 9 130000
      { t := 100000, bikes := 7 } (by decide) (by decide)⟩

lemma keep_pred_eq (now ret : Int) (s : Sample) :
    decide (now - ret * (60 * 60 * 1000) ≤ s.t) = !decide (s.t < now - ret * 3600000) := by
  rw [← decide_not]
  exact decide_eq_decide.mpr (by omega)

lemma lookupSeries_pruneStations_none (h : History) (now ret : Int) (id : String)
    (hid : ¬ id ∈ h.map Prod.fst) :
    lookupSeries (pruneStations h now ret) id = none := by
  unfold lookupSeries
  rw [List.find?_eq_none.mpr]
  · rfl
  · intro p hp
    unfold pruneStations at hp
    rcases List.mem_filter.mp hp with ⟨hmap, _⟩
    rcases List.mem_map.mp hmap with ⟨q, hq, hqe⟩
    have h1 : p.1 = q.1 := by rw [← hqe]
    have hmem2 : p.1 ∈ h.map Prod.fst := by
      rw [h1]
      exact List.mem_map.mpr ⟨q, hq, rfl⟩
    simp only [beq_iff_eq]
    intro he
    rw [he] at hmem2
    exact hid hmem2

/-- C5: pruning with retention `ret` removes, from each station's series,
exactly the samples with `t < now - ret*3600000`, keeps the remaining samples
in order (the result is the filter of the original series), and deletes the
station's entry entirely when its series becomes empty. -/
theorem prune_spec (h : History) (now ret : Int)
    (hkeys : (h.map Prod.fst).Nodup) (id : String) :
    lookupSeries (pruneStations h now ret) id =
      (lookupSeries h id).bind (fun samples =>
        if (samples.filter (fun s => !decide (s.t < now - ret * 3600000))).isEmpty then none
        else some (samples.filter (fun s => !decide (s.t < now - ret * 3600000)))) := by
  induction h with
  | nil => rfl
  | cons p rest ih =>
      rw [List.map_cons, List.nodup_cons] at hkeys
      obtain ⟨hp, hrest⟩ := hkeys
      have hfilter :
          p.2.filter (fun s => decide (now - ret * (60 * 60 * 1000) ≤ s.t)) =
            p.2.filter (fun s => !decide (s.t < now - ret * 3600000)) :=
        List.filter_congr (fun s _ => keep_pred_eq now ret s)
      have hstep : pruneStations (p :: rest) now ret =
          (if (p.2.filter (fun s => !decide (s.t < now - ret * 3600000))).isEmpty then
            pruneStations rest now ret
          else (p.1, p.2.filter (fun s => !decide (s.t < now - ret * 3600000))) ::
            pruneStations rest now ret) := by
        show (((p.1, p.2.filter (fun s => decide (now - ret * (60 * 60 * 1000) ≤ s.t))) ::
            rest.map (fun q =>
              (q.1, q.2.filter (fun s =>
                decide (now - ret * (60 * 60 * 1000) ≤ s.t))))).filter
            (fun q => !q.2.isEmpty)) = _
        rw [hfilter, List.filter_cons]
        by_cases hk : (p.2.filter (fun s => !decide (s.t < now - ret * 3600000))).isEmpty <;>
          simp [hk, pruneStations]
      by_cases hid : p.1 = id
      · subst hid
        have hlook : lookupSeries (p :: rest) p.1 = some p.2 := by
          unfold lookupSeries
          rw [List.find?_cons_of_pos _ (by simp)]
          rfl
        rw [hstep, hlook]
        simp only [Option.some_bind]
        by_cases hk : (p.2.filter (fun s => !decide (s.t < now - ret * 3600000))).isEmpty
        · rw [if_pos hk, if_pos hk]
          exact lookupSeries_pruneStations_none rest now ret p.1 hp
        · rw [if_neg hk, if_neg hk]
          unfold lookupSeries
          rw [List.find?_cons_of_pos _ (by simp)]
          rfl
      · have hlook : lookupSeries (p :: rest) id = lookupSeries rest id := by
          unfold lookupSeries
          rw [List.find?_cons_of_neg _ (by simp [hid])]
        rw [hstep, hlook, ← ih hrest]
        by_cases hk : (p.2.filter (fun s => !decide (s.t < now - ret * 3600000))).isEmpty
        · rw [if_pos hk]
        · rw [if_neg hk]
          unfold lookupSeries
          rw [List.find?_cons_of_neg _ (by simp [hid])]

/-- Witness for C5: a two-station history at now = 36h + 50 ms with retention
36h; station a keeps only its sample at t = 100, station b is deleted. -/
theorem prune_spec_witness :
    (([("a", [({ t := 0, bikes := 1 } : Sample), { t := 100, bikes := 2 }]),
        ("b", [({ t := 0, bikes := 3 } : Sample)])] : History).map Prod.fst).Nodup ∧
      lookupSeries
          (pruneStations
            [("a", [({ t := 0, bikes := 1 } : Sample), { t := 100, bikes := 2 }]),
              ("b", [({ t := 0, bikes := 3 } : Sample)])] 129600050 36) "b" =
        (lookupSeries
            [("a", [({ t := 0, bikes := 1 } : Sample), { t := 100, bikes := 2 }]),
              ("b", [({ t := 0, bikes := 3 } : Sample)])] "b").bind (fun samples =>
          if (samples.filter (fun s => !decide (s.t < 129600050 - 36 * 3600000))).isEmpty then
            none
          else some (samples.filter (fun s => !decide (s.t < 129600050 - 36 * 3600000)))) :=
  ⟨by decide,
    prune_spec
      [("a", [({ t := 0, bikes := 1 } : Sample), { t := 100, bikes := 2 }]),
        ("b", [({ t := 0, bikes := 3 } : Sample)])] 129600050 36 (by decide) "b"⟩

lemma objGet_cons_of_pos {α : Type} (p : String × α) (rest : List (String × α)) (id : String)
    (hp : p.1 = id) : objGet (p :: rest) id = some p.2 := by
  unfold objGet
  rw [List.find?_cons_of_pos _ (by simp [hp])]
  rfl

lemma objGet_cons_of_neg {α : Type} (p : String × α) (rest : List (String × α)) (id : String)
    (hp : p.1 ≠ id) : objGet (p :: rest) id = objGet rest id := by
  unfold objGet
  rw [List.find?_cons_of_neg _ (by simp [hp])]

lemma objGet_append_singleton_other {α : Type} (m : List (String × α)) (id other : String)
    (v : α) (hne : other ≠ id) : objGet (m ++ [(id, v)]) other = objGet m other := by
  induction m with
  | nil =>
      rw [List.nil_append, objGet_cons_of_neg _ _ _ (fun hc => hne hc.symm)]
  | cons p rest ih =>
      rw [List.cons_append]
      by_cases hpo : p.1 = other
      · rw [objGet_cons_of_pos _ _ _ hpo, objGet_cons_of_pos _ _ _ hpo]
      · rw [objGet_cons_of_neg _ _ _ hpo, objGet_cons_of_neg _ _ _ hpo, ih]

lemma objGet_mapset_other {α : Type} (m : List (String × α)) (id other : String) (v : α)
    (hne : other ≠ id) :
    objGet (m.map (fun p => if p.1 == id then (id, v) else p)) other = objGet m other := by
  induction m with
  | nil => rfl
  | cons p rest ih =>
      simp only [List.map_cons]
      by_cases hpo : p.1 = other
      · have hpid : ¬ ((p.1 == id) = true) := by
          simp only [beq_iff_eq]
          intro hc
          exact hne (by rw [← hpo]; exact hc)
        rw [if_neg hpid, objGet_cons_of_pos _ _ _ hpo, objGet_cons_of_pos _ _ _ hpo]
      · have hkey : (if p.1 == id then ((id, v) : String × α) else p).1 ≠ other := by
          split
          · exact fun hc => hne hc.symm
          · exact hpo
        rw [objGet_cons_of_neg _ _ _ hkey, objGet_cons_of_neg _ _ _ hpo, ih]

lemma objGet_objSet_other {α : Type} (m : List (String × α)) (id other : String) (v : α)
    (hne : other ≠ id) : objGet (objSet m id v) other = objGet m other := by
  unfold objSet
  split
  · exact objGet_mapset_other m id other v hne
  · exact objGet_append_singleton_other m id other v hne

lemma objGet_mapset_self {α : Type} (m : List (String × α)) (id : String) (v : α)
    (hmem : m.any (fun p => p.1 == id) = true) :
    objGet (m.map (fun p => if p.1 == id then (id, v) else p)) id = some v := by
  induction m with
  | nil => simp at hmem
  | cons p rest ih =>
      simp only [List.map_cons]
      by_cases hpid : p.1 = id
      · rw [if_pos (by simp [hpid]), objGet_cons_of_pos _ _ _ rfl]
      · rw [if_neg (by simp [hpid]), objGet_cons_of_neg _ _ _ hpid]
        apply ih
        rw [List.any_cons] at hmem
        have hfpb : (p.1 == id) = false := by simp [hpid]
        rw [hfpb] at hmem
        simpa using hmem

lemma objGet_append_singleton_self {α : Type} (m : List (String × α)) (id : String) (v : α)
    (hmem : m.any (fun p => p.1 == id) = false) :
    objGet (m ++ [(id, v)]) id = some v := by
  induction m with
  | nil => exact objGet_cons_of_pos _ _ _ rfl
  | cons p rest ih =>
      rw [List.any_cons] at hmem
      rcases Bool.or_eq_false_iff.mp hmem with ⟨h1, h2⟩
      have hp1 : p.1 ≠ id := by
        intro hc
        rw [hc] at h1
        simp at h1
      rw [List.cons_append, objGet_cons_of_neg _ _ _ hp1]
      exact ih h2

lemma objGet_objSet_self {α : Type} (m : List (String × α)) (id : String) (v : α) :
    objGet (objSet m id v) id = some v := by
  unfold objSet
  by_cases hmem : m.any (fun p => p.1 == id) = true
  · rw [if_pos hmem]
    exact objGet_mapset_self m id v hmem
  · rw [if_neg hmem]
    exact objGet_append_singleton_self m id v (Bool.eq_false_iff.mpr hmem)

/-- C10: ingesting a sample for one station changes no other station's entry in
History: for every other id, its series (presence and contents) is unchanged. -/
theorem append_station_frame (h : History) (id : String) (bikes now : Int) (other : String)
    (hne : other ≠ id) :
    lookupSeries (appendStation h id bikes now) other = lookupSeries h other :=
  objGet_objSet_other h id other _ hne

/-- Witness for C10: appending for station b leaves station a's series intact. -/
theorem append_station_frame_witness :
    ("a" : String) ≠ "b" ∧
      lookupSeries (appendStation [("a", [({ t := 0, bikes := 1 } : Sample)])] "b" 4 500000)
          "a" =
        lookupSeries [("a", [({ t := 0, bikes := 1 } : Sample)])] "a" :=
  ⟨by decide, append_station_frame _ "b" 4 500000 "a" (by decide)⟩

lemma foldlLatest_none (status : List StatusEntry) (id : String)
    (hnull : ∀ e ∈ status, e.station_id = id → e.num_bikes_available = none) :
    ∀ m : List (String × Int), objGet m id = none →
      objGet (status.foldl (fun m s =>
        match s.num_bikes_available with
        | some n => objSet m s.station_id n
        | none => m) m) id = none := by
  induction status with
  | nil => exact fun m hm => hm
  | cons e rest ih =>
      intro m hm
      rw [List.foldl_cons]
      apply ih (fun x hx hxid => hnull x (List.mem_cons_of_mem e hx) hxid)
      cases hnum : e.num_bikes_available with
      | none =>
          simp only [hnum]
          exact hm
      | some n =>
          simp only [hnum]
          have hne : id ≠ e.station_id := by
            intro hc
            have h0 := hnull e (List.mem_cons_self e rest) hc.symm
            rw [h0] at hnum
            exact Option.noConfusion hnum
          rw [objGet_objSet_other m e.station_id id n hne]
          exact hm

lemma buildLatest_none (status : List StatusEntry) (id : String)
    (hnull : ∀ e ∈ status, e.station_id = id → e.num_bikes_available = none) :
    objGet (buildLatest status) id = none := by
  unfold buildLatest
  exact foldlLatest_none status id hnull [] rfl

lemma ingest_preserves (info : List String) (latest : List (String × Int)) (now : Int)
    (id : String) (hnone : objGet latest id = none) :
    ∀ h : History, lookupSeries (ingest info latest h now) id = lookupSeries h id := by
  induction info with
  | nil => exact fun h => rfl
  | cons i rest ih =>
      intro h
      show lookupSeries (ingest rest latest
        (match objGet latest i with
          | none => h
          | some bikes => appendStation h i bikes now) now) id = lookupSeries h id
      cases hoi : objGet latest i with
      | none =>
          simp only [hoi]
          exact ih h
      | some bikes =>
          simp only [hoi]
          have hne : id ≠ i := by
            intro hc
            rw [← hc, hnone] at hoi
            exact Option.noConfusion hoi
          rw [ih (appendStation h i bikes now)]
          exact objGet_objSet_other h i id _ hne

/-- C7: a station whose live count is missing or non-numeric in the status feed
is skipped by ingestion: its prior series in History (present or absent) is
left unmodified, and ingestion still completes for the other stations. -/
theorem skip_nonnumeric_station (info : List String) (status : List StatusEntry)
    (h : History) (now : Int) (id : String)
    (hnull : ∀ e ∈ status, e.station_id = id → e.num_bikes_available = none) :
    lookupSeries (ingest info (buildLatest status) h now) id = lookupSeries h id :=
  ingest_preserves info (buildLatest status) now id (buildLatest_none status id hnull) h

/-- Witness for C7: station a reports a null count, station b a numeric one;
after a run over both stations, station a's one-sample series is untouched. -/
theorem skip_nonnumeric_station_witness :
    (∀ e ∈ [({ station_id := "a", num_bikes_available := none } : StatusEntry),
        { station_id := "b", num_bikes_available := some 3 }],
      e.station_id = "a" → e.num_bikes_available = none) ∧
      lookupSeries
          (ingest ["a", "b"]
            (buildLatest [({ station_id := "a", num_bikes_available := none } : StatusEntry),
              { station_id := "b", num_bikes_available := some 3 }])
            [("a", [({ t := 0, bikes := 2 } : Sample)])] 1000000) "a" =
        lookupSeries [("a", [({ t := 0, bikes := 2 } : Sample)])] "a" :=
  ⟨by decide,
    skip_nonnumeric_station ["a", "b"]
      [{ station_id := "a", num_bikes_available := none },
        { station_id := "b", num_bikes_available := some 3 }]
      [("a", [{ t := 0, bikes := 2 }])] 1000000 "a" (by decide)⟩

lemma toDeltas_t_sublist_tail (samples : List Sample) :
    ((toDeltas samples).map (fun e => e.t)).Sublist (samples.tail.map (fun s => s.t)) := by
  induction samples with
  | nil => simp [toDeltas]
  | cons p tail ih =>
      cases tail with
      | nil => simp [toDeltas]
      | cons c rest =>
          have hstep : toDeltas (p :: c :: rest) =
              (if c.bikes - p.bikes ≠ 0 then
                [{ t := c.t, delta := c.bikes - p.bikes }] else []) ++ toDeltas (c :: rest) := rfl
          have ih2 :
              ((toDeltas (c :: rest)).map (fun e => e.t)).Sublist (rest.map (fun s => s.t)) := by
            simpa using ih
          rw [hstep, List.map_append]
          simp only [List.tail_cons, List.map_cons]
          by_cases hd : c.bikes - p.bikes ≠ 0
          · rw [if_pos hd]
            simpa using List.Sublist.cons₂ c.t ih2
          · rw [if_neg hd]
            simpa using List.Sublist.cons c.t ih2

lemma chain_gap_pairwise_deltas (samples : List Sample)
    (hchain : samples.Chain' (fun a c => a.t + 60000 < c.t)) :
    ((toDeltas samples).map (fun e => e.t)).Pairwise (fun a c => a < c) := by
  haveI : IsTrans Sample (fun a c => a.t + 60000 < c.t) :=
    ⟨fun a b c h1 h2 => by omega⟩
  have hpw : samples.Pairwise (fun a c => a.t + 60000 < c.t) :=
    List.chain'_iff_pairwise.mp hchain
  have hpw2 : (samples.map (fun s => s.t)).Pairwise (fun a c => a < c) := by
    rw [List.pairwise_map]
    exact hpw.imp (fun h => by omega)
  have hpw3 : (samples.tail.map (fun s => s.t)).Pairwise (fun a c => a < c) :=
    List.Pairwise.sublist ((samples.tail_sublist).map (fun s => s.t)) hpw2
  exact List.Pairwise.sublist (toDeltas_t_sublist_tail samples) hpw3

/-- C9: if a series has consecutive samples spaced by more than 60000 ms and
`now` is not earlier than the last sample, the debounced append keeps that
spacing invariant: the series is unchanged or gains a final sample more than
60000 ms after the previous last; consequently the derived delta events of the
resulting series are strictly ascending in t. -/
theorem append_preserves_spacing (arr : List Sample) (b now : Int)
    (hchain : arr.Chain' (fun a c => a.t + 60000 < c.t))
    (hnow : ∀ s, arr.getLast? = some s → s.t ≤ now) :
    (appendSample arr b now).Chain' (fun a c => a.t + 60000 < c.t) ∧
      (appendSample arr b now = arr ∨
        (appendSample arr b now = arr ++ [{ t := now, bikes := b }] ∧
          ∀ s, arr.getLast? = some s → s.t + 60000 < now)) ∧
      ((toDeltas (appendSample arr b now)).map (fun e => e.t)).Pairwise (fun a c => a < c) := by
  by_cases hc : arr.length = 0 ∨ lastOlderThan arr (now - 60 * 1000) = true
  · have happ : appendSample arr b now = arr ++ [{ t := now, bikes := b }] := by
      unfold appendSample
      rw [if_pos hc]
    have hgap : ∀ s, arr.getLast? = some s → s.t + 60000 < now := by
      intro s hs
      rcases (appendCond_iff arr _).mp hc with harr | ⟨s2, hs2, hlt⟩
      · rw [harr] at hs
        exact Option.noConfusion hs
      · rw [hs] at hs2
        have hs3 := Option.some.inj hs2
        rw [← hs3] at hlt
        omega
    have hchain2 : List.Chain' (fun a c => a.t + 60000 < c.t)
        (arr ++ [({ t := now, bikes := b } : Sample)]) := by
      rw [List.chain'_append]
      refine ⟨hchain, List.chain'_singleton _, ?_⟩
      intro x hx y hy
      simp only [List.head?_cons, Option.mem_def, Option.some.injEq] at hy
      rw [← hy]
      exact hgap x (Option.mem_def.mp hx)
    refine ⟨happ ▸ hchain2, Or.inr ⟨happ, hgap⟩, ?_⟩
    rw [happ]
    exact chain_gap_pairwise_deltas _ hchain2
  · have happ : appendSample arr b now = arr := by
      unfold appendSample
      rw [if_neg hc]
    rw [happ]
    exact ⟨hchain, Or.inl rfl, chain_gap_pairwise_deltas _ hchain⟩

/-- Witness for C9: a one-sample series at t = 0, appended at now = 100000. -/
theorem append_preserves_spacing_witness :
    (appendSample [{ t := 0, bikes := 5 }] 8 100000).Chain' (fun a c => a.t + 60000 < c.t) ∧
      (appendSample [{ t := 0, bikes := 5 }] 8 100000 = [{ t := 0, bikes := 5 }] ∨
        (appendSample [{ t := 0, bikes := 5 }] 8 100000 =
            [({ t := 0, bikes := 5 } : Sample)] ++ [{ t := 100000, bikes := 8 }] ∧
          ∀ s, [({ t := 0, bikes := 5 } : Sample)].getLast? = some s →
            s.t + 60000 < 100000)) ∧
      ((toDeltas (appendSample [{ t := 0, bikes := 5 }] 8 100000)).map
        (fun e => e.t)).Pairwise (fun a c => a < c) :=
  append_preserves_spacing [{ t := 0, bikes := 5 }] 8 100000 (by simp)
    (fun s hs => by
      have h1 := Option.some.inj hs
      rw [← h1]
      decide)

lemma stationStep_eq (history : History) (dayFrom hourFrom nowFrom now : Int) (pw : String)
    (acc : List (String × Int) × Int × Int) (id : String) :
    stationStep history dayFrom hourFrom nowFrom now pw acc id =
      match pubEntry history dayFrom hourFrom nowFrom now pw id with
      | none => acc
      | some q =>
          (objSet acc.1 id q.2,
            (if q.2 < 0 then acc.2.1 + (-q.2) else acc.2.1),
            (if q.2 < 0 then acc.2.2 else acc.2.2 + q.2)) := by
  unfold stationStep pubEntry
  cases lookupSeries history id with
  | none => rfl
  | some samples =>
      by_cases hlen : samples.length < 2
      · simp [hlen]
      · by_cases hnet : selectNet pw (sumNet (toDeltas samples) dayFrom now)
            (sumNet (toDeltas samples) hourFrom now)
            (sumNet (toDeltas samples) nowFrom now) ≠ 0
        · simp [hlen, hnet]
        · simp [hlen, hnet]

lemma pubEntry_some_iff (history : History) (dayFrom hourFrom nowFrom now : Int)
    (pw : String) (id : String) (q : String × Int) :
    pubEntry history dayFrom hourFrom nowFrom now pw id = some q ↔
      ∃ samples, lookupSeries history id = some samples ∧ 2 ≤ samples.length ∧
        q.1 = id ∧
        q.2 = selectNet pw (sumNet (toDeltas samples) dayFrom now)
          (sumNet (toDeltas samples) hourFrom now)
          (sumNet (toDeltas samples) nowFrom now) ∧
        q.2 ≠ 0 := by
  constructor
  · intro h
    unfold pubEntry at h
    cases hls : lookupSeries history id with
    | none =>
        rw [hls] at h
        exact Option.noConfusion h
    | some samples =>
        rw [hls] at h
        simp only at h
        by_cases hlen : samples.length < 2
        · rw [if_pos hlen] at h
          exact Option.noConfusion h
        · rw [if_neg hlen] at h
          by_cases hnet : selectNet pw (sumNet (toDeltas samples) dayFrom now)
              (sumNet (toDeltas samples) hourFrom now)
              (sumNet (toDeltas samples) nowFrom now) ≠ 0
          · rw [if_pos hnet] at h
            have hq := Option.some.inj h
            refine ⟨samples, rfl, by omega, ?_, ?_, ?_⟩
            · rw [← hq]
            · rw [← hq]
            · rw [← hq]
              exact hnet
          · rw [if_neg hnet] at h
            exact Option.noConfusion h
  · rintro ⟨samples, hls, hlen, hq1, hq2, hqne⟩
    unfold pubEntry
    rw [hls]
    simp only
    rw [if_neg (by omega), if_pos (by rw [← hq2]; exact hqne)]
    congr 1
    obtain ⟨a, b⟩ := q
    simp only at hq1 hq2
    rw [hq1, hq2]

lemma stationLoop_eq (history : History) (dayFrom hourFrom nowFrom now : Int) (pw : String) :
    ∀ (l : List String) (m : List (String × Int)),
      l.Nodup → (∀ id ∈ l, m.any (fun p => p.1 == id) = false) →
      l.foldl (stationStep history dayFrom hourFrom nowFrom now pw)
          (m, pickupsOf m, returnsOf m) =
        (m ++ l.filterMap (pubEntry history dayFrom hourFrom nowFrom now pw),
          pickupsOf (m ++ l.filterMap (pubEntry history dayFrom hourFrom nowFrom now pw)),
          returnsOf (m ++ l.filterMap (pubEntry history dayFrom hourFrom nowFrom now pw))) := by
  intro l
  induction l with
  | nil =>
      intro m _ _
      simp
  | cons i rest ih =>
      intro m hnd hkeys
      obtain ⟨hir, hrest⟩ := List.nodup_cons.mp hnd
      rw [List.foldl_cons, stationStep_eq]
      cases hpe : pubEntry history dayFrom hourFrom nowFrom now pw i with
      | none =>
          simp only
          rw [ih m hrest (fun id hid => hkeys id (List.mem_cons_of_mem i hid))]
          simp [List.filterMap_cons, hpe]
      | some q =>
          obtain ⟨qid, net⟩ := q
          have hq1 : qid = i := by
            rcases (pubEntry_some_iff history dayFrom hourFrom nowFrom now pw i
              (qid, net)).mp hpe with ⟨_, _, _, hq1, _⟩
            exact hq1
          subst hq1
          simp only
          have hobj : objSet m qid net = m ++ [(qid, net)] := by
            unfold objSet
            rw [if_neg (by rw [hkeys qid (List.mem_cons_self qid rest)]; exact Bool.false_ne_true)]
          have hpick : (if net < 0 then pickupsOf m + (-net) else pickupsOf m) =
              pickupsOf (m ++ [(qid, net)]) := by
            unfold pickupsOf
            rw [List.map_append, List.sum_append]
            by_cases h : net < 0 <;> simp [h]
          have hret : (if net < 0 then returnsOf m else returnsOf m + net) =
              returnsOf (m ++ [(qid, net)]) := by
            unfold returnsOf
            rw [List.map_append, List.sum_append]
            by_cases h : net < 0 <;> simp [h]
          have hkeys2 : ∀ id ∈ rest, (m ++ [(qid, net)]).any (fun p => p.1 == id) = false := by
            intro id hid
            rw [List.any_append, hkeys id (List.mem_cons_of_mem qid hid)]
            have hne : qid ≠ id := fun hc => hir (hc ▸ hid)
            simp [hne]
          rw [hobj, hpick, hret, ih (m ++ [(qid, net)]) hrest hkeys2]
          simp [List.filterMap_cons, hpe, List.append_assoc]

lemma computeStations_eq (info : List String) (history : History)
    (dayFrom hourFrom nowFrom now : Int) (pw : String) (hinfo : info.Nodup) :
    computeStations info history dayFrom hourFrom nowFrom now pw =
      (info.filterMap (pubEntry history dayFrom hourFrom nowFrom now pw),
        pickupsOf (info.filterMap (pubEntry history dayFrom hourFrom nowFrom now pw)),
        returnsOf (info.filterMap (pubEntry history dayFrom hourFrom nowFrom now pw))) := by
  unfold computeStations
  rw [show (([], 0, 0) : List (String × Int) × Int × Int) =
    ([], pickupsOf [], returnsOf []) from rfl]
  rw [stationLoop_eq history dayFrom hourFrom nowFrom now pw info [] hinfo
    (fun id hid => rfl)]
  simp

/-- C3: the snapshot's totals are computed from the published per-station nets:
totPickups is the sum of the absolute values of the negative published nets and
totReturns is the sum of the positive published nets. -/
theorem totals_from_published (info : List String) (history : History)
    (dayFrom hourFrom now : Int) (pw : String) (hourKey : Int → String)
    (hinfo : info.Nodup) :
    (buildSnapshot info history dayFrom hourFrom now pw hourKey).totPickups =
        ((buildSnapshot info history dayFrom hourFrom now pw hourKey).stations.map
          (fun p => if p.2 < 0 then -p.2 else 0)).sum ∧
      (buildSnapshot info history dayFrom hourFrom now pw hourKey).totReturns =
        ((buildSnapshot info history dayFrom hourFrom now pw hourKey).stations.map
          (fun p => if 0 < p.2 then p.2 else 0)).sum := by
  unfold buildSnapshot
  simp only [computeStations_eq info history dayFrom hourFrom (now - SHORT_WIN_MS) now pw
    hinfo]
  refine ⟨rfl, ?_⟩
  show returnsOf _ = _
  unfold returnsOf
  congr 1
  apply List.map_congr_left
  intro p _
  by_cases h1 : p.2 < 0 <;> by_cases h2 : 0 < p.2 <;> simp [h1, h2] <;> omega

/-- Witness for C3 on a one-station run: the day window yields net -1 for
station a, so totals are pickups 1 and returns 0. -/
theorem totals_from_published_witness :
    (["a", "b"] : List String).Nodup ∧
      (buildSnapshot ["a", "b"]
          [("a", [({ t := 0, bikes := 10 } : Sample), { t := 300000, bikes := 7 },
            { t := 600000, bikes := 9 }])] 0 0 600000 "day" (fun _ => "h")).totPickups =
        ((buildSnapshot ["a", "b"]
            [("a", [({ t := 0, bikes := 10 } : Sample), { t := 300000, bikes := 7 },
              { t := 600000, bikes := 9 }])] 0 0 600000 "day" (fun _ => "h")).stations.map
          (fun p => if p.2 < 0 then -p.2 else 0)).sum ∧
      (buildSnapshot ["a", "b"]
          [("a", [({ t := 0, bikes := 10 } : Sample), { t := 300000, bikes := 7 },
            { t := 600000, bikes := 9 }])] 0 0 600000 "day" (fun _ => "h")).totReturns =
        ((buildSnapshot ["a", "b"]
            [("a", [({ t := 0, bikes := 10 } : Sample), { t := 300000, bikes := 7 },
              { t := 600000, bikes := 9 }])] 0 0 600000 "day" (fun _ => "h")).stations.map
          (fun p => if 0 < p.2 then p.2 else 0)).sum :=
  ⟨by decide,
    (totals_from_published ["a", "b"]
      [("a", [{ t := 0, bikes := 10 }, { t := 300000, bikes := 7 },
        { t := 600000, bikes := 9 }])] 0 0 600000 "day" (fun _ => "h") (by decide)).1,
    (totals_from_published ["a", "b"]
      [("a", [{ t := 0, bikes := 10 }, { t := 300000, bikes := 7 },
        { t := 600000, bikes := 9 }])] 0 0 600000 "day" (fun _ => "h") (by decide)).2⟩

lemma lookupSeries_some_mem (h : History) (id : String) (s : List Sample)
    (hls : lookupSeries h id = some s) : (id, s) ∈ h := by
  unfold lookupSeries at hls
  cases hf : h.find? (fun p => p.1 == id) with
  | none =>
      rw [hf] at hls
      exact Option.noConfusion hls
  | some p =>
      rw [hf] at hls
      have hmem := List.mem_of_find?_eq_some hf
      have hp1 : p.1 = id := by simpa using List.find?_some hf
      have hp2 : p.2 = s := by simpa using hls
      obtain ⟨a, b⟩ := p
      simp only at hp1 hp2
      rw [← hp1, ← hp2]
      exact hmem

/-- C8 (amended): provided every retained station still appears in the
information feed, a pair (id, net) is in the snapshot's stations list exactly
when the station has at least two retained samples and net is its non-zero
selected published-window net; in particular every published entry has net
different from 0 and a zero-net station is omitted.  The restriction is
forced: the loop of line 113 iterates the feed's station list, so a retained
station missing from the feed is never published even with a non-zero net
(see the counterexample). -/
theorem station_published_iff (info : List String) (history : History)
    (dayFrom hourFrom now : Int) (pw : String) (hourKey : Int → String)
    (hinfo : info.Nodup) (hsub : ∀ p ∈ history, p.1 ∈ info) (id : String) (net : Int) :
    (id, net) ∈ (buildSnapshot info history dayFrom hourFrom now pw hourKey).stations ↔
      ∃ samples, lookupSeries history id = some samples ∧ 2 ≤ samples.length ∧
        net = selectNet pw (sumNet (toDeltas samples) dayFrom now)
          (sumNet (toDeltas samples) hourFrom now)
          (sumNet (toDeltas samples) (now - SHORT_WIN_MS) now) ∧
        net ≠ 0 := by
  unfold buildSnapshot
  simp only [computeStations_eq info history dayFrom hourFrom (now - SHORT_WIN_MS) now pw
    hinfo]
  rw [List.mem_filterMap]
  constructor
  · rintro ⟨a, ha, hpe⟩
    rcases (pubEntry_some_iff history dayFrom hourFrom (now - SHORT_WIN_MS) now pw a
      (id, net)).mp hpe with ⟨samples, hls, hlen, hq1, hq2, hqne⟩
    simp only at hq1 hq2 hqne
    rw [← hq1] at hls
    exact ⟨samples, hls, hlen, hq2, hqne⟩
  · rintro ⟨samples, hls, hlen, hnet, hne⟩
    refine ⟨id, hsub (id, samples) (lookupSeries_some_mem history id samples hls), ?_⟩
    rw [pubEntry_some_iff]
    exact ⟨samples, hls, hlen, rfl, hnet, hne⟩

/-- Witness for C8: in the one-station run, (a, -1) is published and the
characterization holds. -/
theorem station_published_iff_witness :
    (["a", "b"] : List String).Nodup ∧
      (∀ p ∈ ([("a", [({ t := 0, bikes := 10 } : Sample), { t := 300000, bikes := 7 },
          { t := 600000, bikes := 9 }])] : History), p.1 ∈ (["a", "b"] : List String)) ∧
      ((("a", -1) : String × Int) ∈ (buildSnapshot ["a", "b"]
          [("a", [({ t := 0, bikes := 10 } : Sample), { t := 300000, bikes := 7 },
            { t := 600000, bikes := 9 }])] 0 0 600000 "day" (fun _ => "h")).stations ↔
        ∃ samples, lookupSeries
            [("a", [({ t := 0, bikes := 10 } : Sample), { t := 300000, bikes := 7 },
              { t := 600000, bikes := 9 }])] "a" = some samples ∧
          2 ≤ samples.length ∧
          (-1 : Int) = selectNet "day" (sumNet (toDeltas samples) 0 600000)
            (sumNet (toDeltas samples) 0 600000)
            (sumNet (toDeltas samples) (600000 - SHORT_WIN_MS) 600000) ∧
          (-1 : Int) ≠ 0) :=
  ⟨by decide, by decide,
    station_published_iff ["a", "b"]
      [("a", [{ t := 0, bikes := 10 }, { t := 300000, bikes := 7 },
        { t := 600000, bikes := 9 }])] 0 0 600000 "day" (fun _ => "h")
      (by decide) (by decide) "a" (-1)⟩

lemma objGet_none_of_not_mem {α : Type} (m : List (String × α)) (id : String)
    (hid : ¬ id ∈ m.map Prod.fst) : objGet m id = none := by
  induction m with
  | nil => rfl
  | cons p rest ih =>
      rw [List.map_cons] at hid
      rw [objGet_cons_of_neg _ _ _
        (fun hc => hid (by rw [← hc]; exact List.mem_cons_self p.1 _))]
      exact ih (fun hc => hid (List.mem_cons_of_mem _ hc))

lemma objGet_mem_nodup {α : Type} (m : List (String × α)) (hkeys : (m.map Prod.fst).Nodup)
    {p : String × α} (hp : p ∈ m) : objGet m p.1 = some p.2 := by
  induction m with
  | nil => cases hp
  | cons q rest ih =>
      rw [List.map_cons, List.nodup_cons] at hkeys
      obtain ⟨hq, hrest⟩ := hkeys
      rcases List.mem_cons.mp hp with hpq | hpr
      · rw [hpq]
        exact objGet_cons_of_pos q rest q.1 rfl
      · have hne : q.1 ≠ p.1 := by
          intro hc
          exact hq (by rw [hc]; exact List.mem_map.mpr ⟨p, hpr, rfl⟩)
        rw [objGet_cons_of_neg _ _ _ hne]
        exact ih hrest hpr

lemma lookupSeries_mem_nodup (h : History) (hkeys : (h.map Prod.fst).Nodup)
    {p : String × List Sample} (hp : p ∈ h) : lookupSeries h p.1 = some p.2 :=
  objGet_mem_nodup h hkeys hp

lemma lookupSeries_none_of_not_mem (h : History) (id : String)
    (hid : ¬ id ∈ h.map Prod.fst) : lookupSeries h id = none :=
  objGet_none_of_not_mem h id hid

lemma hourPickups_cons (hourKey : Int → String) (e : DeltaEvent) (rest : List DeltaEvent)
    (k : String) :
    hourPickups hourKey (e :: rest) k =
      (if (hourKey e.t == k) = true then if e.delta < 0 then -e.delta else 0 else 0) +
        hourPickups hourKey rest k := by
  unfold hourPickups
  rw [List.filter_cons]
  by_cases h : (hourKey e.t == k) = true <;> simp [h]

lemma hourReturns_cons (hourKey : Int → String) (e : DeltaEvent) (rest : List DeltaEvent)
    (k : String) :
    hourReturns hourKey (e :: rest) k =
      (if (hourKey e.t == k) = true then if e.delta < 0 then 0 else e.delta else 0) +
        hourReturns hourKey rest k := by
  unfold hourReturns
  rw [List.filter_cons]
  by_cases h : (hourKey e.t == k) = true <;> simp [h]

lemma hourPickups_append (hourKey : Int → String) (l1 l2 : List DeltaEvent) (k : String) :
    hourPickups hourKey (l1 ++ l2) k = hourPickups hourKey l1 k + hourPickups hourKey l2 k := by
  unfold hourPickups
  rw [List.filter_append, List.map_append, List.sum_append]

lemma hourReturns_append (hourKey : Int → String) (l1 l2 : List DeltaEvent) (k : String) :
    hourReturns hourKey (l1 ++ l2) k = hourReturns hourKey l1 k + hourReturns hourKey l2 k := by
  unfold hourReturns
  rw [List.filter_append, List.map_append, List.sum_append]

lemma hourPickups_flatten (hourKey : Int → String) (L : List (List DeltaEvent)) (k : String) :
    hourPickups hourKey L.flatten k = (L.map (fun l => hourPickups hourKey l k)).sum := by
  induction L with
  | nil => rfl
  | cons l rest ih =>
      rw [List.flatten_cons, hourPickups_append, List.map_cons, List.sum_cons, ih]

lemma hourReturns_flatten (hourKey : Int → String) (L : List (List DeltaEvent)) (k : String) :
    hourReturns hourKey L.flatten k = (L.map (fun l => hourReturns hourKey l k)).sum := by
  induction L with
  | nil => rfl
  | cons l rest ih =>
      rw [List.flatten_cons, hourReturns_append, List.map_cons, List.sum_cons, ih]

lemma any_flatten {α : Type} (p : α → Bool) (L : List (List α)) :
    L.flatten.any p = L.any (fun l => l.any p) := by
  induction L with
  | nil => rfl
  | cons l rest ih => rw [List.flatten_cons, List.any_append, List.any_cons, ih]

lemma processDeltas_objGet (hourKey : Int → String) (k : String) :
    ∀ (evs : List DeltaEvent) (m : List (String × HBucket)),
      objGet (processDeltas hourKey m evs) k =
        match objGet m k with
        | some bkt => some { pickups := bkt.pickups + hourPickups hourKey evs k,
                             returns := bkt.returns + hourReturns hourKey evs k }
        | none =>
            if evs.any (fun e => hourKey e.t == k) then
              some { pickups := hourPickups hourKey evs k,
                     returns := hourReturns hourKey evs k }
            else none := by
  intro evs
  induction evs with
  | nil =>
      intro m
      show objGet m k = _
      cases hm : objGet m k with
      | none => simp [hourPickups, hourReturns]
      | some bkt =>
          cases bkt
          simp [hourPickups, hourReturns]
  | cons e rest ih =>
      intro m
      show objGet (processDeltas hourKey (bumpBucket m (hourKey e.t) e.delta) rest) k = _
      rw [ih (bumpBucket m (hourKey e.t) e.delta)]
      by_cases hk : hourKey e.t = k
      · subst hk
        rw [show objGet (bumpBucket m (hourKey e.t) e.delta) (hourKey e.t) =
            some (addEvent ((objGet m (hourKey e.t)).getD { pickups := 0, returns := 0 })
              e.delta) from objGet_objSet_self _ _ _]
        rw [hourPickups_cons, hourReturns_cons, List.any_cons]
        simp only [beq_self_eq_true, if_true, Bool.true_or]
        cases hm : objGet m (hourKey e.t) with
        | some bkt =>
            simp only [Option.getD_some]
            by_cases hd : e.delta < 0 <;> simp [addEvent, hd, add_assoc]
        | none =>
            simp only [Option.getD_none]
            by_cases hd : e.delta < 0 <;> simp [addEvent, hd, add_assoc]
      · have hne : k ≠ hourKey e.t := fun hc => hk hc.symm
        rw [show objGet (bumpBucket m (hourKey e.t) e.delta) k = objGet m k from
          objGet_objSet_other _ _ _ _ hne]
        rw [hourPickups_cons, hourReturns_cons, List.any_cons]
        have hbeq : (hourKey e.t == k) = false := by simp [hk]
        rw [hbeq]
        simp only [Bool.false_eq_true, if_false, Bool.false_or, zero_add]

lemma buildHourly_eq (hourKey : Int → String) (history : History) :
    ∀ (info : List String) (m : List (String × HBucket)),
      info.foldl (fun m id =>
        match lookupSeries history id with
        | none => m
        | some samples =>
            if samples.length < 2 then m
            else processDeltas hourKey m (toDeltas samples)) m =
      processDeltas hourKey m
        ((info.map (fun id => toDeltas ((lookupSeries history id).getD []))).flatten) := by
  intro info
  induction info with
  | nil => intro m; rfl
  | cons i rest ih =>
      intro m
      simp only [List.foldl_cons, List.map_cons, List.flatten_cons]
      have hstep : (match lookupSeries history i with
          | none => m
          | some samples =>
              if samples.length < 2 then m
              else processDeltas hourKey m (toDeltas samples)) =
          processDeltas hourKey m (toDeltas ((lookupSeries history i).getD [])) := by
        cases hls : lookupSeries history i with
        | none => rfl
        | some samples =>
            simp only [Option.getD_some]
            by_cases hlen : samples.length < 2
            · rw [if_pos hlen, toDeltas_short samples (by omega)]
              rfl
            · rw [if_neg hlen]
      rw [hstep, ih (processDeltas hourKey m (toDeltas ((lookupSeries history i).getD [])))]
      show processDeltas hourKey _ _ = _
      unfold processDeltas
      rw [List.foldl_append]

lemma sum_filter_of_zero (G : String → Int) (keys : List String) :
    ∀ l : List String, (∀ x ∈ l, ¬ x ∈ keys → G x = 0) →
      (l.map G).sum = ((l.filter (fun x => decide (x ∈ keys))).map G).sum := by
  intro l
  induction l with
  | nil => intro _; rfl
  | cons x rest ih =>
      intro hz
      rw [List.map_cons, List.sum_cons, List.filter_cons]
      by_cases hx : x ∈ keys
      · rw [if_pos (by simp [hx]), List.map_cons, List.sum_cons,
          ih (fun y hy => hz y (List.mem_cons_of_mem x hy))]
      · rw [if_neg (by simp [hx]), hz x (List.mem_cons_self x rest) hx, zero_add,
          ih (fun y hy => hz y (List.mem_cons_of_mem x hy))]

lemma sum_info_eq_sum_keys (G : String → Int) (info keys : List String)
    (hinfo : info.Nodup) (hkeys : keys.Nodup) (hsub : ∀ x ∈ keys, x ∈ info)
    (hzero : ∀ x ∈ info, ¬ x ∈ keys → G x = 0) :
    (info.map G).sum = (keys.map G).sum := by
  rw [sum_filter_of_zero G keys info hzero]
  have hperm : List.Perm (info.filter (fun x => decide (x ∈ keys))) keys := by
    rw [List.perm_ext_iff_of_nodup (List.Nodup.filter _ hinfo) hkeys]
    intro a
    simp only [List.mem_filter, decide_eq_true_eq]
    exact ⟨fun h => h.2, fun h => ⟨hsub a h, h⟩⟩
  exact (hperm.map G).sum_eq

/-- C6 (amended): provided every retained station still appears in the
information feed, the hourly mapping is built from every delta event derivable
from the full retained history (independent of the published window): a key is
present exactly when some event falls in that hour, its pickups is the sum of
the absolute values of the negative deltas of that hour and its returns the sum
of the positive deltas of that hour.  The restriction is forced: the loop of
line 138 iterates the feed's station list, so a retained station missing from
the feed contributes nothing (see the counterexample). -/
theorem hourly_full_history (hourKey : Int → String) (info : List String)
    (history : History) (hinfo : info.Nodup) (hhk : (history.map Prod.fst).Nodup)
    (hsub : ∀ p ∈ history, p.1 ∈ info) (k : String) :
    objGet (buildHourly hourKey info history) k =
      (if (allHistoryDeltas history).any (fun e => hourKey e.t == k) then
        some { pickups := hourPickups hourKey (allHistoryDeltas history) k,
               returns := hourReturns hourKey (allHistoryDeltas history) k }
      else none) := by
  have hbuild : buildHourly hourKey info history =
      processDeltas hourKey []
        ((info.map (fun id => toDeltas ((lookupSeries history id).getD []))).flatten) :=
    buildHourly_eq hourKey history info []
  rw [hbuild, processDeltas_objGet hourKey k _ []]
  show (if ((info.map (fun id => toDeltas ((lookupSeries history id).getD []))).flatten.any
      (fun e => hourKey e.t == k)) then
    some (HBucket.mk
      (hourPickups hourKey
        ((info.map (fun id => toDeltas ((lookupSeries history id).getD []))).flatten) k)
      (hourReturns hourKey
        ((info.map (fun id => toDeltas ((lookupSeries history id).getD []))).flatten) k))
    else none) = _
  have hmem : ∀ e : DeltaEvent,
      e ∈ (info.map (fun id => toDeltas ((lookupSeries history id).getD []))).flatten ↔
        e ∈ allHistoryDeltas history := by
    intro e
    unfold allHistoryDeltas
    simp only [List.mem_flatten, List.mem_map]
    constructor
    · rintro ⟨l, ⟨id, hid, rfl⟩, hel⟩
      cases hls : lookupSeries history id with
      | none =>
          rw [hls] at hel
          simp [toDeltas] at hel
      | some s =>
          rw [hls] at hel
          exact ⟨toDeltas s, ⟨(id, s), lookupSeries_some_mem history id s hls, rfl⟩, hel⟩
    · rintro ⟨l, ⟨p, hp, rfl⟩, hel⟩
      refine ⟨toDeltas p.2, ⟨p.1, hsub p hp, ?_⟩, hel⟩
      rw [lookupSeries_mem_nodup history hhk hp]
      rfl
  have hany : ((info.map (fun id => toDeltas ((lookupSeries history id).getD []))).flatten.any
        (fun e => hourKey e.t == k)) =
      ((allHistoryDeltas history).any (fun e => hourKey e.t == k)) := by
    cases hb : (allHistoryDeltas history).any (fun e => hourKey e.t == k) with
    | true =>
        rw [List.any_eq_true] at hb ⊢
        obtain ⟨x, hx, hpx⟩ := hb
        exact ⟨x, (hmem x).mpr hx, hpx⟩
    | false =>
        rw [List.any_eq_false] at hb ⊢
        intro x hx
        exact hb x ((hmem x).mp hx)
  have hpick : hourPickups hourKey
      ((info.map (fun id => toDeltas ((lookupSeries history id).getD []))).flatten) k =
      hourPickups hourKey (allHistoryDeltas history) k := by
    have h1 : hourPickups hourKey
        ((info.map (fun id => toDeltas ((lookupSeries history id).getD []))).flatten) k =
        (info.map (fun id =>
          hourPickups hourKey (toDeltas ((lookupSeries history id).getD [])) k)).sum := by
      rw [hourPickups_flatten, List.map_map]
      rfl
    have h2 : hourPickups hourKey (allHistoryDeltas history) k =
        (history.map (fun p => hourPickups hourKey (toDeltas p.2) k)).sum := by
      unfold allHistoryDeltas
      rw [hourPickups_flatten, List.map_map]
      rfl
    rw [h1, h2,
      sum_info_eq_sum_keys
        (fun id => hourPickups hourKey (toDeltas ((lookupSeries history id).getD [])) k)
        info (history.map Prod.fst) hinfo hhk
        (fun x hx => by
          rcases List.mem_map.mp hx with ⟨p, hp, hpe⟩
          rw [← hpe]
          exact hsub p hp)
        (fun x _ hnx => by
          show hourPickups hourKey (toDeltas ((lookupSeries history x).getD [])) k = 0
          rw [lookupSeries_none_of_not_mem history x hnx]
          rfl),
      List.map_map]
    refine congrArg List.sum (List.map_congr_left ?_)
    intro p hp
    show hourPickups hourKey (toDeltas ((lookupSeries history p.1).getD [])) k =
      hourPickups hourKey (toDeltas p.2) k
    rw [lookupSeries_mem_nodup history hhk hp]
    rfl
  have hret : hourReturns hourKey
      ((info.map (fun id => toDeltas ((lookupSeries history id).getD []))).flatten) k =
      hourReturns hourKey (allHistoryDeltas history) k := by
    have h1 : hourReturns hourKey
        ((info.map (fun id => toDeltas ((lookupSeries history id).getD []))).flatten) k =
        (info.map (fun id =>
          hourReturns hourKey (toDeltas ((lookupSeries history id).getD [])) k)).sum := by
      rw [hourReturns_flatten, List.map_map]
      rfl
    have h2 : hourReturns hourKey (allHistoryDeltas history) k =
        (history.map (fun p => hourReturns hourKey (toDeltas p.2) k)).sum := by
      unfold allHistoryDeltas
      rw [hourReturns_flatten, List.map_map]
      rfl
    rw [h1, h2,
      sum_info_eq_sum_keys
        (fun id => hourReturns hourKey (toDeltas ((lookupSeries history id).getD [])) k)
        info (history.map Prod.fst) hinfo hhk
        (fun x hx => by
          rcases List.mem_map.mp hx with ⟨p, hp, hpe⟩
          rw [← hpe]
          exact hsub p hp)
        (fun x _ hnx => by
          show hourReturns hourKey (toDeltas ((lookupSeries history x).getD [])) k = 0
          rw [lookupSeries_none_of_not_mem history x hnx]
          rfl),
      List.map_map]
    refine congrArg List.sum (List.map_congr_left ?_)
    intro p hp
    show hourReturns hourKey (toDeltas ((lookupSeries history p.1).getD [])) k =
      hourReturns hourKey (toDeltas p.2) k
    rw [lookupSeries_mem_nodup history hhk hp]
    rfl
  rw [hany, hpick, hret]

/-- Witness for C6: one station with deltas at t = 300000 (delta -3) and t =
600000 (delta 2), both in the first hour bucket. -/
theorem hourly_full_history_witness :
    (["a", "b"] : List String).Nodup ∧
      (([("a", [({ t := 0, bikes := 10 } : Sample), { t := 300000, bikes := 7 },
          { t := 600000, bikes := 9 }])] : History).map Prod.fst).Nodup ∧
      (∀ p ∈ ([("a", [({ t := 0, bikes := 10 } : Sample), { t := 300000, bikes := 7 },
          { t := 600000, bikes := 9 }])] : History), p.1 ∈ (["a", "b"] : List String)) ∧
      objGet (buildHourly (fun t => if t < 3600000 then "h0" else "h1") ["a", "b"]
          [("a", [({ t := 0, bikes := 10 } : Sample), { t := 300000, bikes := 7 },
            { t := 600000, bikes := 9 }])]) "h0" =
        (if (allHistoryDeltas
            [("a", [({ t := 0, bikes := 10 } : Sample), { t := 300000, bikes := 7 },
              { t := 600000, bikes := 9 }])]).any
            (fun e => (fun t : Int => if t < 3600000 then "h0" else "h1") e.t == "h0") then
          some (HBucket.mk
            (hourPickups (fun t => if t < 3600000 then "h0" else "h1")
              (allHistoryDeltas
                [("a", [({ t := 0, bikes := 10 } : Sample), { t := 300000, bikes := 7 },
                  { t := 600000, bikes := 9 }])]) "h0")
            (hourReturns (fun t => if t < 3600000 then "h0" else "h1")
              (allHistoryDeltas
                [("a", [({ t := 0, bikes := 10 } : Sample), { t := 300000, bikes := 7 },
                  { t := 600000, bikes := 9 }])]) "h0"))
        else none) :=
  ⟨by decide, by decide, by decide,
    hourly_full_history (fun t => if t < 3600000 then "h0" else "h1") ["a", "b"]
      [("a", [{ t := 0, bikes := 10 }, { t := 300000, bikes := 7 },
        { t := 600000, bikes := 9 }])] (by decide) (by decide) (by decide) "h0"⟩

/-- Counterexample for C6 as originally stated: station x is retained with two
samples (one pickup event of 3 at t = 100000) but absent from the information
feed, so the full retained history has an event in hour h0 with pickups sum 3
while the built hourly mapping has no bucket at all. -/
theorem hourly_not_full_history_cex :
    objGet (buildHourly (fun _ => "h0") ["a"]
        [("x", [({ t := 0, bikes := 5 } : Sample), { t := 100000, bikes := 2 }])]) "h0" =
        none ∧
      ((allHistoryDeltas
          [("x", [({ t := 0, bikes := 5 } : Sample), { t := 100000, bikes := 2 }])]).any
        (fun e => ((fun _ : Int => "h0") e.t == "h0"))) = true ∧
      hourPickups (fun _ : Int => "h0")
        (allHistoryDeltas
          [("x", [({ t := 0, bikes := 5 } : Sample), { t := 100000, bikes := 2 }])])
        "h0" = 3 :=
  ⟨by decide, by decide, by decide⟩

/-- Counterexample for C8 as originally stated: station x has two retained
samples and a non-zero day-window net of -3, yet it is absent from the
information feed, so the snapshot's stations list does not contain it. -/
theorem station_not_published_cex :
    (∃ samples,
        lookupSeries [("x", [({ t := 0, bikes := 5 } : Sample), { t := 100000, bikes := 2 }])]
            "x" = some samples ∧
        2 ≤ samples.length ∧
        (-3 : Int) = selectNet "day" (sumNet (toDeltas samples) 0 100000)
          (sumNet (toDeltas samples) 0 100000)
          (sumNet (toDeltas samples) (100000 - SHORT_WIN_MS) 100000) ∧
        (-3 : Int) ≠ 0) ∧
      ¬ (("x", (-3 : Int)) ∈ (buildSnapshot ["a"]
          [("x", [({ t := 0, bikes := 5 } : Sample), { t := 100000, bikes := 2 }])]
          0 0 100000 "day" (fun _ => "h0")).stations) :=
  ⟨⟨[{ t := 0, bikes := 5 }, { t := 100000, bikes := 2 }], by decide, by decide, by decide,
    by decide⟩, by decide⟩

end BikeTracker
